import Mathlib

/-!
Verification of the Pangram word game: the pure mechanics of
`games/pangram/src/mechanics.ts` and the XState machine of
`games/pangram/src/machine.ts`, shallowly embedded in Lean.

Modelling conventions:
* JS strings are lists of characters (`List Char`); the JS
  `toLowerCase`/`toUpperCase` calls are modelled by `Char.toLower` /
  `Char.toUpper`, which implement the same Basic Latin case mapping.
* JS `Set` construction followed by iteration/`has` only affects
  duplicate handling, never membership, so `Set(xs).has`/iteration is
  modelled by `List.contains`/`List.all` over the underlying list.
* JS numbers appearing here are always integers; the score is an `Int`
  and word scores are `Nat`.
* Fallible constructs (array indexing that can yield `undefined`, a
  promise that can reject) are modelled with `Option`/`Except`.
-/

namespace Pangram

/-- A puzzle: 7 letters plus a designated center letter
(`Puzzle` in mechanics.ts). -/
structure Puzzle where
  letters : List Char
  centerLetter : Char
deriving DecidableEq, Repr

/-- The fixed 10-entry puzzle catalog (`PUZZLES` in mechanics.ts). -/
def PUZZLES : List Puzzle := [
  ⟨['R', 'A', 'C', 'K', 'I', 'N', 'G'], 'K'⟩,
  ⟨['P', 'L', 'A', 'Y', 'I', 'N', 'G'], 'Y'⟩,
  ⟨['T', 'R', 'A', 'V', 'E', 'L', 'S'], 'V'⟩,
  ⟨['Q', 'U', 'I', 'C', 'K', 'L', 'Y'], 'Q'⟩,
  ⟨['J', 'U', 'M', 'P', 'I', 'N', 'G'], 'J'⟩,
  ⟨['S', 'T', 'R', 'O', 'N', 'G', 'E'], 'G'⟩,
  ⟨['B', 'R', 'I', 'G', 'H', 'T', 'S'], 'B'⟩,
  ⟨['C', 'L', 'O', 'U', 'D', 'S', 'Y'], 'Y'⟩,
  ⟨['W', 'A', 'T', 'E', 'R', 'S', 'Y'], 'W'⟩,
  ⟨['M', 'A', 'R', 'K', 'E', 'T', 'S'], 'K'⟩]

/-- `word.toLowerCase()` on a word modelled as a character list. -/
def lowerWord (w : List Char) : List Char := w.map Char.toLower

/-- `isPangram(word, letters)` from mechanics.ts: every (lowercased)
puzzle letter occurs among the (lowercased) characters of `word`.
The source builds `Set`s of both sides; set formation only removes
duplicates, which changes neither the iteration in the `for` loop
(`all`) nor `has` (`contains`). -/
def isPangram (word letters : List Char) : Bool :=
  (letters.map Char.toLower).all fun l => (lowerWord word).contains l

/-- `usesOnlyAvailableLetters(word, letters)` from mechanics.ts. -/
def usesOnlyAvailableLetters (word letters : List Char) : Bool :=
  (lowerWord word).all fun c => (letters.map Char.toLower).contains c

/-- `containsCenterLetter(word, centerLetter)` from mechanics.ts: for a
one-character center, `String.includes` is character membership. -/
def containsCenterLetter (word : List Char) (centerLetter : Char) : Bool :=
  (lowerWord word).contains centerLetter.toLower

/-- Rejection string of the length check in `validateWordRules`. -/
def tooShortReason : String := "Too short! Need 4+ letters"

/-- Rejection string of the center-letter check in `validateWordRules`;
the template literal interpolates the center letter. -/
def centerReason (centerLetter : Char) : String :=
  "Must include center letter: " ++ centerLetter.toString

/-- Rejection string of the available-letters check in `validateWordRules`. -/
def unavailableReason : String := "Uses letters not in the puzzle"

/-- Rejection string of the duplicate check in `validateWordRules`. -/
def alreadyFoundReason : String := "Already found!"

/-- `validateWordRules(word, letters, centerLetter, foundWords)` from
mechanics.ts; `none` models `{ valid: true }` and `some reason` models
`{ valid: false, reason }`. -/
def validateWordRules (word letters : List Char) (centerLetter : Char)
    (foundWords : List (List Char)) : Option String :=
  let normalizedWord := lowerWord word
  if normalizedWord.length < 4 then
    some tooShortReason
  else if ! containsCenterLetter normalizedWord centerLetter then
    some (centerReason centerLetter)
  else if ! usesOnlyAvailableLetters normalizedWord letters then
    some unavailableReason
  else if foundWords.contains normalizedWord then
    some alreadyFoundReason
  else
    none

/-- `calculateWordScore(word, letters)` from mechanics.ts. -/
def calculateWordScore (word letters : List Char) : Nat :=
  let points := word.length
  let points := if word.length = 4 then 1 else points
  if isPangram word letters then points + 7 else points

/-- `getPuzzle(index)` from mechanics.ts, at JS semantics: `%` is the
truncated remainder (it keeps the dividend's sign, `Int.tmod`), and
indexing an array at a negative position yields `undefined` (`none`). -/
def getPuzzle (index : Int) : Option Puzzle :=
  let r := Int.tmod index (PUZZLES.length : Int)
  if 0 ≤ r then PUZZLES.get? r.toNat else none

/-- Total variant of `getPuzzle` for the machine, which only ever calls
it at nonnegative indices (initial index and `puzzleIndex + 1`); the
default is never reached because `n % PUZZLES.length < PUZZLES.length`. -/
def getPuzzleNat (n : Nat) : Puzzle :=
  (PUZZLES.get? (n % PUZZLES.length)).getD ⟨[], 'A'⟩

/-! ## The XState machine of machine.ts

The machine has two states, `playing` (the spec's `Ready`) and
`validating`. In XState v5 an event with no matching transition in the
active state or an ancestor is silently discarded; the `validating`
state of machine.ts declares no `on` handlers and the root declares
none, so every game event is dropped while `validating`. The invoked
`validateWord` actor is modelled by giving the resolution step the
oracle outcome (`Except Unit Bool`: a promise that either rejects or
resolves to a boolean) as an explicit input. -/

/-- The two machine states of machine.ts. -/
inductive MachineState
  | playing
  | validating
deriving DecidableEq, Repr

/-- `lastMessageType` values of `PangramContext` in machine.ts. -/
inductive MessageType
  | info
  | success
  | error
  | pangram
deriving DecidableEq, Repr

/-- `PangramContext` from machine.ts. The JS `score` number is an
`Int` (all writes are integer arithmetic). -/
structure PangramContext where
  letters : List Char
  centerLetter : Char
  currentInput : List Char
  foundWords : List (List Char)
  score : Int
  lastMessage : String
  lastMessageType : MessageType
  puzzleIndex : Nat
deriving DecidableEq, Repr

/-- `PangramEvent` from machine.ts. -/
inductive PangramEvent
  | ADD_LETTER (letter : Char)
  | DELETE_LETTER
  | CLEAR
  | SUBMIT
  | SUBMIT_WORD (word : List Char)
  | NEW_PUZZLE
deriving DecidableEq, Repr

/-- The `addLetter` action of machine.ts: uppercase the letter, append
it only when it is one of the puzzle letters, else leave the context
unchanged. -/
def addLetter (ctx : PangramContext) (letter : Char) : PangramContext :=
  let l := letter.toUpper
  if ctx.letters.contains l then
    { ctx with currentInput := ctx.currentInput ++ [l], lastMessage := "" }
  else
    ctx

/-- The `deleteLetter` action of machine.ts. -/
def deleteLetter (ctx : PangramContext) : PangramContext :=
  if ctx.currentInput.length = 0 then
    ctx
  else
    { ctx with currentInput := ctx.currentInput.dropLast, lastMessage := "" }

/-- The `clearInput` action of machine.ts. -/
def clearInput (ctx : PangramContext) : PangramContext :=
  { ctx with currentInput := [], lastMessage := "" }

/-- The filtering shared by the `SUBMIT_WORD` guard and the `setWord`
action of machine.ts: uppercase the word and keep only the characters
that are puzzle letters (order preserved). -/
def filterWordToLetters (word letters : List Char) : List Char :=
  (word.map Char.toUpper).filter fun l => letters.contains l

/-- The `setWord` action of machine.ts. -/
def setWord (ctx : PangramContext) (word : List Char) : PangramContext :=
  { ctx with currentInput := filterWordToLetters word ctx.letters }

/-- The `resetForNewPuzzle` action of machine.ts; note the source
advances the stored index modulo the literal 10 (which equals the
catalog size). -/
def resetForNewPuzzle (ctx : PangramContext) : PangramContext :=
  let puzzle := getPuzzleNat (ctx.puzzleIndex + 1)
  { letters := puzzle.letters
    centerLetter := puzzle.centerLetter
    currentInput := []
    foundWords := []
    score := 0
    lastMessage := ""
    lastMessageType := .info
    puzzleIndex := (ctx.puzzleIndex + 1) % 10 }

/-- Lexicographic comparison of words by character code, the order JS
`Array.prototype.sort()` uses for strings (UTF-16 code units). -/
def wordLe : List Char → List Char → Bool
  | [], _ => true
  | _ :: _, [] => false
  | a :: as, b :: bs =>
    if a.val < b.val then true
    else if b.val < a.val then false
    else wordLe as bs

/-- Insertion step of `sortWords`. -/
def insertWord (w : List Char) : List (List Char) → List (List Char)
  | [] => [w]
  | x :: xs => if wordLe w x then w :: x :: xs else x :: insertWord w xs

/-- `array.sort()` of machine.ts modelled as insertion sort under
`wordLe`; it produces a `wordLe`-sorted rearrangement, which is what
the source relies on. -/
def sortWords (ws : List (List Char)) : List (List Char) :=
  ws.foldr insertWord []

/-- Rejection string of the dictionary check in the `validateWord`
actor of machine.ts. -/
def notAWordReason : String := "Not a valid English word"

/-- `lastMessage` set by the `onError` handler of machine.ts. -/
def failedToValidateMsg : String := "Failed to validate word"

/-- The `ValidationResult` union of machine.ts. -/
inductive ValidationResult
  | invalid (reason : String)
  | valid (word : List Char) (points : Nat) (pang : Bool) (message : String)
deriving DecidableEq, Repr

/-- The success message built by the `validateWord` actor of machine.ts. -/
def successMessage (points : Nat) (pang : Bool) : String :=
  if pang then
    "PANGRAM! +" ++ toString points ++ " points!"
  else
    "+" ++ toString points ++ " point" ++ (if 1 < points then "s" else "")

/-- The `validateWord` actor of machine.ts: local rules first (a rules
rejection returns without consulting the dictionary), then the
dictionary oracle. The oracle outcome is passed in as `Except Unit
Bool`; `.error` is a rejected promise, which makes the whole actor
promise reject (machine-level `onError`). -/
def validateWord (word letters : List Char) (centerLetter : Char)
    (foundWords : List (List Char)) (oracle : Except Unit Bool) :
    Except Unit ValidationResult :=
  match validateWordRules word letters centerLetter foundWords with
  | some reason => .ok (.invalid reason)
  | none =>
    match oracle with
    | .error e => .error e
    | .ok false => .ok (.invalid notAWordReason)
    | .ok true =>
      let normalizedWord := lowerWord word
      let points := calculateWordScore normalizedWord letters
      let pang := isPangram normalizedWord letters
      .ok (.valid normalizedWord points pang (successMessage points pang))

/-- The accepting `onDone` branch of machine.ts (`guard: isValidWord`). -/
def recordValidWord (ctx : PangramContext) (word : List Char)
    (points : Nat) (pang : Bool) (message : String) : PangramContext :=
  { ctx with
    foundWords := sortWords (ctx.foundWords ++ [word])
    score := ctx.score + (points : Int)
    currentInput := []
    lastMessage := message
    lastMessageType := if pang then .pangram else .success }

/-- The rejecting `onDone` branch and the `onError` branch of
machine.ts share this shape: clear the input, surface `message` as an
error. -/
def setValidationError (ctx : PangramContext) (message : String) :
    PangramContext :=
  { ctx with
    currentInput := []
    lastMessage := message
    lastMessageType := .error }

/-- Resolution of the `validating` state of machine.ts: dispatch on the
actor result (`onDone` accepted / `onDone` rejected / `onError`). All
branches target `playing`. -/
def resolveValidating (ctx : PangramContext) (oracle : Except Unit Bool) :
    MachineState × PangramContext :=
  match validateWord ctx.currentInput ctx.letters ctx.centerLetter
      ctx.foundWords oracle with
  | .ok (.valid w pts pang msg) => (.playing, recordValidWord ctx w pts pang msg)
  | .ok (.invalid reason) => (.playing, setValidationError ctx reason)
  | .error _ => (.playing, setValidationError ctx failedToValidateMsg)

/-- The `on` transitions of the `playing` state of machine.ts. -/
def stepPlaying (ctx : PangramContext) :
    PangramEvent → MachineState × PangramContext
  | .ADD_LETTER letter => (.playing, addLetter ctx letter)
  | .DELETE_LETTER => (.playing, deleteLetter ctx)
  | .CLEAR => (.playing, clearInput ctx)
  | .SUBMIT =>
    if 4 ≤ ctx.currentInput.length then
      (.validating, ctx)
    else
      (.playing, { ctx with
        lastMessage := "Word must be at least 4 letters"
        lastMessageType := .error })
  | .SUBMIT_WORD word =>
    if 4 ≤ (filterWordToLetters word ctx.letters).length then
      (.validating, setWord ctx word)
    else
      (.playing, { ctx with
        lastMessage := "Word must be at least 4 valid letters"
        lastMessageType := .error })
  | .NEW_PUZZLE => (.playing, resetForNewPuzzle ctx)

/-- An input to the machine: either a game event, or the resolution of
the in-flight validation promise. -/
inductive MachineInput
  | event (e : PangramEvent)
  | resolve (oracle : Except Unit Bool)
deriving Repr

/-- One step of the machine of machine.ts. In `playing`, game events
follow the transition table and no promise is in flight (a `resolve`
input is inert). In `validating`, every game event is discarded (no
handler matches it) and the promise resolution follows
`onDone`/`onError`. -/
def stepInput :
    MachineState × PangramContext → MachineInput →
    MachineState × PangramContext
  | (.playing, ctx), .event e => stepPlaying ctx e
  | (.validating, ctx), .event _ => (.validating, ctx)
  | (.validating, ctx), .resolve oracle => resolveValidating ctx oracle
  | (.playing, ctx), .resolve _ => (.playing, ctx)

/-- The initial state of machine.ts (`context` function of
`createMachine`), from a caller-supplied starting puzzle index. -/
def initialState (puzzleIndex : Nat) : MachineState × PangramContext :=
  let puzzle := getPuzzleNat puzzleIndex
  (.playing,
    { letters := puzzle.letters
      centerLetter := puzzle.centerLetter
      currentInput := []
      foundWords := []
      score := 0
      lastMessage := ""
      lastMessageType := .info
      puzzleIndex := puzzleIndex })

/-- States reachable from some initial state by machine steps. -/
inductive Reachable : MachineState × PangramContext → Prop
  | init (puzzleIndex : Nat) : Reachable (initialState puzzleIndex)
  | step (s : MachineState × PangramContext) (inp : MachineInput) :
      Reachable s → Reachable (stepInput s inp)

/-- Invariant carried by every reachable state: the pending input only
holds puzzle letters, and the puzzle letters are uppercase. -/
def InputInv (s : MachineState × PangramContext) : Prop :=
  (∀ c ∈ s.2.currentInput, c ∈ s.2.letters) ∧
  (∀ c ∈ s.2.letters, c.isUpper = true)

/-- Sample context on puzzle 0 with the pending input "RACK". -/
def sampleCtx : PangramContext :=
  { letters := ['R', 'A', 'C', 'K', 'I', 'N', 'G']
    centerLetter := 'K'
    currentInput := ['R', 'A', 'C', 'K']
    foundWords := []
    score := 0
    lastMessage := ""
    lastMessageType := .info
    puzzleIndex := 0 }

/-- Sample context whose pending input is a word already found. -/
def dupCtx : PangramContext :=
  { sampleCtx with
    currentInput := ['r', 'a', 'c', 'k']
    foundWords := [['r', 'a', 'c', 'k']] }

/-! ## Helper lemmas -/

theorem toNat_ofNat_of_valid {n : Nat} (h : n.isValidChar) :
    (Char.ofNat n).toNat = n := by
  rw [Char.ofNat, dif_pos h]
  rfl

theorem toLower_eq_pos {c : Char} (h : 65 ≤ c.toNat ∧ c.toNat ≤ 90) :
    c.toLower = Char.ofNat (c.toNat + 32) := by
  simp [Char.toLower, h]

theorem toLower_eq_neg {c : Char} (h : ¬(65 ≤ c.toNat ∧ c.toNat ≤ 90)) :
    c.toLower = c := by
  simp [Char.toLower, h]

/-- The Basic Latin lower-casing is idempotent. -/
theorem toLower_toLower (c : Char) : c.toLower.toLower = c.toLower := by
  by_cases h : 65 ≤ c.toNat ∧ c.toNat ≤ 90
  · have hv : Nat.isValidChar (c.toNat + 32) := Or.inl (by omega)
    have ht : (Char.ofNat (c.toNat + 32)).toNat = c.toNat + 32 :=
      toNat_ofNat_of_valid hv
    rw [toLower_eq_pos h]
    apply toLower_eq_neg
    rw [ht]
    omega
  · rw [toLower_eq_neg h, toLower_eq_neg h]

theorem lowerWord_idem (w : List Char) :
    lowerWord (lowerWord w) = lowerWord w := by
  simp only [lowerWord, List.map_map]
  exact List.map_congr_left fun c _ => toLower_toLower c

theorem length_lowerWord (w : List Char) : (lowerWord w).length = w.length :=
  List.length_map w Char.toLower

theorem containsCenterLetter_iff (word : List Char) (center : Char) :
    containsCenterLetter (lowerWord word) center = true ↔
      center.toLower ∈ lowerWord word := by
  rw [show containsCenterLetter (lowerWord word) center =
      (lowerWord (lowerWord word)).contains center.toLower from rfl]
  rw [lowerWord_idem]
  simp

theorem usesOnlyAvailableLetters_iff (word letters : List Char) :
    usesOnlyAvailableLetters (lowerWord word) letters = true ↔
      ∀ c ∈ word, c.toLower ∈ lowerWord letters := by
  rw [show usesOnlyAvailableLetters (lowerWord word) letters =
      ((lowerWord (lowerWord word)).all fun c =>
        (letters.map Char.toLower).contains c) from rfl]
  rw [lowerWord_idem]
  simp [lowerWord]

/-! ## Claim theorems -/

/-- C2: `calculateWordScore` returns the word's length, except that a
word of exactly length 4 scores 1, plus a flat +7 bonus exactly when
the word is a pangram for the puzzle letters; concrete values for the
letters R,A,C,K,I,N,G: racking scores 14, cracking 15, rack 1,
crack 5. -/
theorem C2_scoreWord_formula :
    (∀ word letters : List Char,
      calculateWordScore word letters =
        (if word.length = 4 then 1 else word.length) +
          (if isPangram word letters then 7 else 0)) ∧
    calculateWordScore ['r', 'a', 'c', 'k', 'i', 'n', 'g']
      ['R', 'A', 'C', 'K', 'I', 'N', 'G'] = 14 ∧
    calculateWordScore ['c', 'r', 'a', 'c', 'k', 'i', 'n', 'g']
      ['R', 'A', 'C', 'K', 'I', 'N', 'G'] = 15 ∧
    calculateWordScore ['r', 'a', 'c', 'k']
      ['R', 'A', 'C', 'K', 'I', 'N', 'G'] = 1 ∧
    calculateWordScore ['c', 'r', 'a', 'c', 'k']
      ['R', 'A', 'C', 'K', 'I', 'N', 'G'] = 5 := by
  refine ⟨fun word letters => ?_, by decide, by decide, by decide, by decide⟩
  simp only [calculateWordScore]
  split <;> simp

/-- C8: `isPangram word letters` holds iff every (distinct, lowercased)
character of `letters` occurs among the (lowercased) characters of
`word`; it depends only on which characters occur in the word, never on
length or repetition, and a 9-character word containing all 7 puzzle
letters is a pangram. -/
theorem C8_isPangram_superset :
    (∀ word letters : List Char,
      isPangram word letters = true ↔
        ∀ c ∈ letters, c.toLower ∈ lowerWord word) ∧
    (∀ w₁ w₂ letters : List Char,
      (∀ c, c ∈ lowerWord w₁ ↔ c ∈ lowerWord w₂) →
      isPangram w₁ letters = isPangram w₂ letters) ∧
    isPangram ['c', 'r', 'a', 'c', 'k', 'i', 'n', 'g', 's']
      ['R', 'A', 'C', 'K', 'I', 'N', 'G'] = true := by
  have key : ∀ word letters : List Char,
      isPangram word letters = true ↔
        ∀ c ∈ letters, c.toLower ∈ lowerWord word := by
    intro word letters
    simp [isPangram, lowerWord]
  refine ⟨key, fun w₁ w₂ letters h => ?_, by decide⟩
  rw [Bool.eq_iff_iff, key, key]
  constructor <;> intro hall c hc
  · exact (h _).mp (hall c hc)
  · exact (h _).mpr (hall c hc)

theorem getPuzzle_coe_nat (n : Nat) :
    getPuzzle (n : Int) = PUZZLES.get? (n % PUZZLES.length) := by
  have h : Int.tmod (n : Int) (PUZZLES.length : Int) =
      ((n % PUZZLES.length : Nat) : Int) := rfl
  simp only [getPuzzle]
  rw [h, if_pos (Int.natCast_nonneg _)]
  congr 1

/-- C9 (amended): for every nonnegative index, `getPuzzle` returns the
catalog entry at position `index mod catalogSize`; negative indices are
excluded because the JS `%` keeps the dividend's sign there and the
resulting negative array access yields `undefined`. -/
theorem C9_getPuzzle_wraps (n : Nat) :
    ∃ h : n % PUZZLES.length < PUZZLES.length,
      getPuzzle (n : Int) = some (PUZZLES.get ⟨n % PUZZLES.length, h⟩) := by
  have hlen : n % PUZZLES.length < PUZZLES.length := Nat.mod_lt _ (by decide)
  exact ⟨hlen, by rw [getPuzzle_coe_nat]; exact List.get?_eq_get hlen⟩

/-- C9 counterexample: at index -3 the code returns `undefined`
(`none`), not the catalog entry at position `-3 mod 10 = 7` that the
claim promises for every integer index. -/
theorem C9_counterexample :
    getPuzzle (-3) = none ∧ Int.emod (-3) (PUZZLES.length : Int) = 7 := by
  decide

/-- C4 (amended): `validateWordRules` applies ordered checks with the
first failure winning — too short, then missing center letter, then a
letter outside the available set, then membership of the *lowercased*
word in `foundWords` (an exact-match check, case-insensitive only when
the stored words are lowercase, as the machine maintains) — and accepts
exactly when all four pass. -/
theorem C4_validateWordRules_checks
    (word letters : List Char) (center : Char)
    (foundWords : List (List Char)) :
    (word.length < 4 →
      validateWordRules word letters center foundWords =
        some tooShortReason) ∧
    (4 ≤ word.length → center.toLower ∉ lowerWord word →
      validateWordRules word letters center foundWords =
        some (centerReason center)) ∧
    (4 ≤ word.length → center.toLower ∈ lowerWord word →
      (∃ c ∈ word, c.toLower ∉ lowerWord letters) →
      validateWordRules word letters center foundWords =
        some unavailableReason) ∧
    (4 ≤ word.length → center.toLower ∈ lowerWord word →
      (∀ c ∈ word, c.toLower ∈ lowerWord letters) →
      lowerWord word ∈ foundWords →
      validateWordRules word letters center foundWords =
        some alreadyFoundReason) ∧
    (validateWordRules word letters center foundWords = none ↔
      (4 ≤ word.length ∧ center.toLower ∈ lowerWord word ∧
        (∀ c ∈ word, c.toLower ∈ lowerWord letters) ∧
        lowerWord word ∉ foundWords)) := by
  refine ⟨fun h1 => ?_, fun h1 h2 => ?_, fun h1 h2 h3 => ?_,
    fun h1 h2 h3 h4 => ?_, ?_⟩
  · simp [validateWordRules, length_lowerWord, h1]
  · have h1n : ¬ word.length < 4 := by omega
    have hc : containsCenterLetter (lowerWord word) center = false :=
      Bool.eq_false_iff.mpr fun hx =>
        h2 ((containsCenterLetter_iff word center).mp hx)
    simp [validateWordRules, length_lowerWord, h1n, hc]
  · have h1n : ¬ word.length < 4 := by omega
    have hc : containsCenterLetter (lowerWord word) center = true :=
      (containsCenterLetter_iff word center).mpr h2
    have hu : usesOnlyAvailableLetters (lowerWord word) letters = false :=
      Bool.eq_false_iff.mpr fun hx => by
        obtain ⟨c, hcw, hcl⟩ := h3
        exact hcl (((usesOnlyAvailableLetters_iff word letters).mp hx) c hcw)
    simp [validateWordRules, length_lowerWord, h1n, hc, hu]
  · have h1n : ¬ word.length < 4 := by omega
    have hc : containsCenterLetter (lowerWord word) center = true :=
      (containsCenterLetter_iff word center).mpr h2
    have hu : usesOnlyAvailableLetters (lowerWord word) letters = true :=
      (usesOnlyAvailableLetters_iff word letters).mpr h3
    simp [validateWordRules, length_lowerWord, h1n, hc, hu, h4]
  · constructor
    · intro h
      by_cases h1 : word.length < 4
      · simp [validateWordRules, length_lowerWord, h1] at h
      · by_cases h2 : center.toLower ∈ lowerWord word
        · have hc : containsCenterLetter (lowerWord word) center = true :=
            (containsCenterLetter_iff word center).mpr h2
          by_cases h3 : ∀ c ∈ word, c.toLower ∈ lowerWord letters
          · have hu : usesOnlyAvailableLetters (lowerWord word) letters
                = true := (usesOnlyAvailableLetters_iff word letters).mpr h3
            by_cases h4 : lowerWord word ∈ foundWords
            · simp [validateWordRules, length_lowerWord, h1, hc, hu, h4] at h
            · exact ⟨by omega, h2, h3, h4⟩
          · have hu : usesOnlyAvailableLetters (lowerWord word) letters
                = false := Bool.eq_false_iff.mpr fun hx =>
              h3 ((usesOnlyAvailableLetters_iff word letters).mp hx)
            simp [validateWordRules, length_lowerWord, h1, hc, hu] at h
        · have hc : containsCenterLetter (lowerWord word) center = false :=
            Bool.eq_false_iff.mpr fun hx =>
              h2 ((containsCenterLetter_iff word center).mp hx)
          simp [validateWordRules, length_lowerWord, h1, hc] at h
    · rintro ⟨h1, h2, h3, h4⟩
      have h1n : ¬ word.length < 4 := by omega
      have hc : containsCenterLetter (lowerWord word) center = true :=
        (containsCenterLetter_iff word center).mpr h2
      have hu : usesOnlyAvailableLetters (lowerWord word) letters = true :=
        (usesOnlyAvailableLetters_iff word letters).mpr h3
      simp [validateWordRules, length_lowerWord, h1n, hc, hu, h4]

/-- C4 counterexample: with `foundWords = ["RACK"]` (an uppercase
entry) the word "RACK" is case-insensitively already found, yet
`validateWordRules` accepts it, because the code tests exact membership
of the lowercased word rather than case-insensitive membership. -/
theorem C4_counterexample :
    (∃ w ∈ ([['R', 'A', 'C', 'K']] : List (List Char)),
      lowerWord w = lowerWord ['R', 'A', 'C', 'K']) ∧
    validateWordRules ['R', 'A', 'C', 'K'] ['R', 'A', 'C', 'K', 'I', 'N', 'G']
      'K' [['R', 'A', 'C', 'K']] = none := by
  decide

theorem usesOnly_iff_plain (word letters : List Char) :
    usesOnlyAvailableLetters word letters = true ↔
      ∀ c ∈ word, c.toLower ∈ lowerWord letters := by
  simp [usesOnlyAvailableLetters, lowerWord]

theorem getPuzzleNat_mem (n : Nat) : getPuzzleNat n ∈ PUZZLES := by
  unfold getPuzzleNat
  rw [List.get?_eq_get (Nat.mod_lt _ (by decide))]
  simp only [Option.getD_some]
  exact List.get_mem _ _ _

theorem PUZZLES_letters_upper :
    ∀ p ∈ PUZZLES, ∀ c ∈ p.letters, c.isUpper = true := by decide

/-- A word whose lowercased form was already found is always rejected
by the local rules. -/
theorem validateWordRules_ne_none_of_mem {w L : List Char} {c : Char}
    {fw : List (List Char)} (h : lowerWord w ∈ fw) :
    validateWordRules w L c fw ≠ none := by
  intro hn
  simp only [validateWordRules] at hn
  split_ifs at hn
  simp_all

/-- When the word only uses available letters, the local rules never
produce the unavailable-letters rejection. -/
theorem validateWordRules_not_unavailable
    {w L : List Char} {center : Char} {fw : List (List Char)}
    (h : ∀ a ∈ w, a ∈ L) :
    validateWordRules w L center fw = none ∨
    validateWordRules w L center fw = some tooShortReason ∨
    validateWordRules w L center fw = some (centerReason center) ∨
    validateWordRules w L center fw = some alreadyFoundReason := by
  have hu : usesOnlyAvailableLetters (lowerWord w) L = true :=
    (usesOnlyAvailableLetters_iff w L).mpr fun a ha =>
      List.mem_map_of_mem _ (h a ha)
  by_cases h1 : w.length < 4
  · exact Or.inr (Or.inl (by simp [validateWordRules, length_lowerWord, h1]))
  · by_cases h2 : containsCenterLetter (lowerWord w) center = true
    · by_cases h4 : lowerWord w ∈ fw
      · exact Or.inr (Or.inr (Or.inr
          (by simp [validateWordRules, length_lowerWord, h1, h2, hu, h4])))
      · exact Or.inl
          (by simp [validateWordRules, length_lowerWord, h1, h2, hu, h4])
    · have h2f : containsCenterLetter (lowerWord w) center = false :=
        Bool.eq_false_iff.mpr h2
      exact Or.inr (Or.inr (Or.inl
        (by simp [validateWordRules, length_lowerWord, h1, h2f])))

/-- Every single step either keeps the score or is a `NEW_PUZZLE`
reset to 0. -/
theorem score_step (s : MachineState × PangramContext) (inp : MachineInput) :
    s.2.score ≤ (stepInput s inp).2.score ∨
      (inp = .event .NEW_PUZZLE ∧ (stepInput s inp).2.score = 0) := by
  obtain ⟨st, ctx⟩ := s
  cases st with
  | validating =>
    cases inp with
    | event e => exact Or.inl le_rfl
    | resolve oracle =>
      left
      show ctx.score ≤ (resolveValidating ctx oracle).2.score
      unfold resolveValidating
      split
      · exact le_add_of_nonneg_right (Int.natCast_nonneg _)
      · exact le_rfl
      · exact le_rfl
  | playing =>
    cases inp with
    | resolve oracle => exact Or.inl le_rfl
    | event e =>
      cases e with
      | ADD_LETTER letter =>
        left
        show ctx.score ≤ (addLetter ctx letter).score
        simp only [addLetter]
        split <;> exact le_rfl
      | DELETE_LETTER =>
        left
        show ctx.score ≤ (deleteLetter ctx).score
        simp only [deleteLetter]
        split <;> exact le_rfl
      | CLEAR => exact Or.inl le_rfl
      | SUBMIT =>
        left
        show ctx.score ≤ (stepPlaying ctx .SUBMIT).2.score
        simp only [stepPlaying]
        split <;> exact le_rfl
      | SUBMIT_WORD word =>
        left
        show ctx.score ≤ (stepPlaying ctx (.SUBMIT_WORD word)).2.score
        simp only [stepPlaying]
        split <;> exact le_rfl
      | NEW_PUZZLE => exact Or.inr ⟨rfl, rfl⟩

theorem inputInv_init (i : Nat) : InputInv (initialState i) := by
  refine ⟨?_, fun c hc => PUZZLES_letters_upper _ (getPuzzleNat_mem i) c hc⟩
  intro c hc
  exact absurd hc (List.not_mem_nil c)

theorem inputInv_step (s : MachineState × PangramContext)
    (inp : MachineInput) (h : InputInv s) : InputInv (stepInput s inp) := by
  obtain ⟨st, ctx⟩ := s
  obtain ⟨hin, hup⟩ := h
  cases st with
  | validating =>
    cases inp with
    | event e => exact ⟨hin, hup⟩
    | resolve oracle =>
      show InputInv (resolveValidating ctx oracle)
      unfold resolveValidating
      split
      · exact ⟨fun c hc => absurd hc (List.not_mem_nil c), hup⟩
      · exact ⟨fun c hc => absurd hc (List.not_mem_nil c), hup⟩
      · exact ⟨fun c hc => absurd hc (List.not_mem_nil c), hup⟩
  | playing =>
    cases inp with
    | resolve oracle => exact ⟨hin, hup⟩
    | event e =>
      cases e with
      | ADD_LETTER letter =>
        show InputInv (.playing, addLetter ctx letter)
        simp only [addLetter]
        split
        · refine ⟨fun c hmem => ?_, hup⟩
          rcases List.mem_append.mp hmem with hl | hr
          · exact hin c hl
          · rw [List.mem_singleton.mp hr]
            next hc => simpa using hc
        · exact ⟨hin, hup⟩
      | DELETE_LETTER =>
        show InputInv (.playing, deleteLetter ctx)
        simp only [deleteLetter]
        split
        · exact ⟨hin, hup⟩
        · exact ⟨fun c hc =>
            hin c ((List.dropLast_sublist _).subset hc), hup⟩
      | CLEAR =>
        exact ⟨fun c hc => absurd hc (List.not_mem_nil c), hup⟩
      | SUBMIT =>
        show InputInv (stepPlaying ctx .SUBMIT)
        simp only [stepPlaying]
        split
        · exact ⟨hin, hup⟩
        · exact ⟨hin, hup⟩
      | SUBMIT_WORD word =>
        show InputInv (stepPlaying ctx (.SUBMIT_WORD word))
        simp only [stepPlaying]
        split
        · refine ⟨fun c hc => ?_, hup⟩
          simp only [setWord, filterWordToLetters, List.mem_filter] at hc
          simpa using hc.2
        · exact ⟨hin, hup⟩
      | NEW_PUZZLE =>
        exact ⟨fun c hc => absurd hc (List.not_mem_nil c),
          fun c hc => PUZZLES_letters_upper _ (getPuzzleNat_mem _) c hc⟩

theorem reachable_inputInv (s : MachineState × PangramContext)
    (h : Reachable s) : InputInv s := by
  induction h with
  | init i => exact inputInv_init i
  | step s inp hs ih => exact inputInv_step s inp ih

/-- Witness for C4: the duplicate check fires on a concrete lowercase
duplicate. -/
theorem C4_witness :
    4 ≤ (['r', 'a', 'c', 'k'] : List Char).length ∧
    validateWordRules ['r', 'a', 'c', 'k'] ['R', 'A', 'C', 'K', 'I', 'N', 'G']
      'K' [['r', 'a', 'c', 'k']] = some alreadyFoundReason :=
  ⟨by decide,
    (C4_validateWordRules_checks ['r', 'a', 'c', 'k']
      ['R', 'A', 'C', 'K', 'I', 'N', 'G'] 'K' [['r', 'a', 'c', 'k']]).2.2.2.1
      (by decide) (by decide) (by decide) (by decide)⟩

/-- C1: when the local rules pass (so the dictionary oracle really is
consulted) and the oracle call rejects (throws), the machine lands back
in `playing` with `lastMessage = "Failed to validate word"` of kind
error, the pending input cleared, and `foundWords`, `score` and every
other field unchanged; moreover every possible resolution of the
validation, oracle failure included, leaves `validating`. -/
theorem C1_fail_closed (ctx : PangramContext)
    (hrules : validateWordRules ctx.currentInput ctx.letters
      ctx.centerLetter ctx.foundWords = none) :
    stepInput (.validating, ctx) (.resolve (.error ())) =
      (.playing, { ctx with
        currentInput := []
        lastMessage := failedToValidateMsg
        lastMessageType := .error }) ∧
    ∀ oracle, (stepInput (.validating, ctx) (.resolve oracle)).1 =
      .playing := by
  constructor
  · show resolveValidating ctx (.error ()) = _
    unfold resolveValidating validateWord
    rw [hrules]
    rfl
  · intro oracle
    show (resolveValidating ctx oracle).1 = .playing
    unfold resolveValidating
    split <;> rfl

/-- Witness for C1 at a concrete context validating "RACK". -/
theorem C1_witness :
    validateWordRules sampleCtx.currentInput sampleCtx.letters
      sampleCtx.centerLetter sampleCtx.foundWords = none ∧
    stepInput (.validating, sampleCtx) (.resolve (.error ())) =
      (.playing, { sampleCtx with
        currentInput := []
        lastMessage := failedToValidateMsg
        lastMessageType := .error }) :=
  ⟨by decide, (C1_fail_closed sampleCtx (by decide)).1⟩

/-- C3 (amended): in the `playing` state, `NEW_PUZZLE` advances
`puzzleIndex` by one modulo the catalog size, replaces the letters and
center with the next catalog entry, and resets input, found words,
score and the message fields; in the `validating` state the event has
no matching transition, so it is discarded with no effect. -/
theorem C3_new_puzzle (ctx : PangramContext) :
    stepInput (.playing, ctx) (.event .NEW_PUZZLE) =
      (.playing, resetForNewPuzzle ctx) ∧
    (resetForNewPuzzle ctx).puzzleIndex =
      (ctx.puzzleIndex + 1) % PUZZLES.length ∧
    (resetForNewPuzzle ctx).letters =
      (getPuzzleNat (ctx.puzzleIndex + 1)).letters ∧
    (resetForNewPuzzle ctx).centerLetter =
      (getPuzzleNat (ctx.puzzleIndex + 1)).centerLetter ∧
    (resetForNewPuzzle ctx).currentInput = [] ∧
    (resetForNewPuzzle ctx).foundWords = [] ∧
    (resetForNewPuzzle ctx).score = 0 ∧
    (resetForNewPuzzle ctx).lastMessage = "" ∧
    (resetForNewPuzzle ctx).lastMessageType = .info ∧
    stepInput (.validating, ctx) (.event .NEW_PUZZLE) =
      (.validating, ctx) :=
  ⟨rfl, rfl, rfl, rfl, rfl, rfl, rfl, rfl, rfl, rfl⟩

/-- C3 counterexample: in the `validating` state `NEW_PUZZLE` is *not*
accepted — the machine state is unchanged and `puzzleIndex` does not
advance to `(0 + 1) % catalogSize`. -/
theorem C3_counterexample :
    stepInput (.validating, (initialState 0).2) (.event .NEW_PUZZLE) =
      (.validating, (initialState 0).2) ∧
    (stepInput (.validating, (initialState 0).2)
      (.event .NEW_PUZZLE)).2.puzzleIndex ≠ (0 + 1) % PUZZLES.length := by
  decide

/-- C5: `SUBMIT_WORD` filters the submitted string to the puzzle's
letters (uppercased, order preserved — the filtered word is a sublist
of the uppercased input and all its characters are puzzle letters); if
the filtered result has length at least 4 the machine enters
`validating` with exactly that filtered string as pending input, and
otherwise it stays in `playing` with an error message — never reaching
`validating`, so no dictionary call is started. -/
theorem C5_submit_word_filter (ctx : PangramContext) (word : List Char) :
    (∀ c ∈ filterWordToLetters word ctx.letters, c ∈ ctx.letters) ∧
    List.Sublist (filterWordToLetters word ctx.letters)
      (word.map Char.toUpper) ∧
    (4 ≤ (filterWordToLetters word ctx.letters).length →
      stepInput (.playing, ctx) (.event (.SUBMIT_WORD word)) =
        (.validating, { ctx with
          currentInput := filterWordToLetters word ctx.letters })) ∧
    ((filterWordToLetters word ctx.letters).length < 4 →
      stepInput (.playing, ctx) (.event (.SUBMIT_WORD word)) =
        (.playing, { ctx with
          lastMessage := "Word must be at least 4 valid letters"
          lastMessageType := .error })) := by
  refine ⟨?_, List.filter_sublist _, ?_, ?_⟩
  · intro c hc
    simp only [filterWordToLetters, List.mem_filter] at hc
    simpa using hc.2
  · intro h
    show stepPlaying ctx (.SUBMIT_WORD word) = _
    simp only [stepPlaying]
    rw [if_pos h]
    rfl
  · intro h
    show stepPlaying ctx (.SUBMIT_WORD word) = _
    simp only [stepPlaying]
    rw [if_neg (by omega)]

/-- Witness for C5 on puzzle 0 and the submission "cracking". -/
theorem C5_witness :
    4 ≤ (filterWordToLetters ['c', 'r', 'a', 'c', 'k', 'i', 'n', 'g']
      (initialState 0).2.letters).length ∧
    stepInput (.playing, (initialState 0).2)
      (.event (.SUBMIT_WORD ['c', 'r', 'a', 'c', 'k', 'i', 'n', 'g'])) =
      (.validating, { (initialState 0).2 with
        currentInput := filterWordToLetters
          ['c', 'r', 'a', 'c', 'k', 'i', 'n', 'g']
          (initialState 0).2.letters }) :=
  ⟨by decide,
    (C5_submit_word_filter (initialState 0).2
      ['c', 'r', 'a', 'c', 'k', 'i', 'n', 'g']).2.2.1 (by decide)⟩

/-- C6: every rejected validation (any local-rule failure or the
dictionary saying no) sends the machine back to `playing` changing only
the pending input (cleared) and the message fields, leaving
`foundWords` and `score` untouched; in particular, when the pending
word's lowercase form is already in `foundWords`, the outcome is a
rejection whatever the oracle answers, so a duplicate submission never
changes `score` or `foundWords`. -/
theorem C6_rejection_frame (ctx : PangramContext)
    (oracle : Except Unit Bool) :
    (∀ reason, validateWord ctx.currentInput ctx.letters ctx.centerLetter
        ctx.foundWords oracle = .ok (.invalid reason) →
      stepInput (.validating, ctx) (.resolve oracle) =
        (.playing, { ctx with
          currentInput := []
          lastMessage := reason
          lastMessageType := .error })) ∧
    (lowerWord ctx.currentInput ∈ ctx.foundWords →
      (stepInput (.validating, ctx) (.resolve oracle)).1 = .playing ∧
      (stepInput (.validating, ctx) (.resolve oracle)).2.foundWords =
        ctx.foundWords ∧
      (stepInput (.validating, ctx) (.resolve oracle)).2.score =
        ctx.score) := by
  constructor
  · intro reason h
    show resolveValidating ctx oracle = _
    unfold resolveValidating
    rw [h]
    rfl
  · intro hmem
    obtain ⟨r, hr⟩ : ∃ r, validateWordRules ctx.currentInput ctx.letters
        ctx.centerLetter ctx.foundWords = some r :=
      Option.ne_none_iff_exists'.mp (validateWordRules_ne_none_of_mem hmem)
    have hv : validateWord ctx.currentInput ctx.letters ctx.centerLetter
        ctx.foundWords oracle = .ok (.invalid r) := by
      unfold validateWord
      rw [hr]
    show (resolveValidating ctx oracle).1 = .playing ∧
      (resolveValidating ctx oracle).2.foundWords = ctx.foundWords ∧
      (resolveValidating ctx oracle).2.score = ctx.score
    unfold resolveValidating
    rw [hv]
    exact ⟨rfl, rfl, rfl⟩

/-- Witness for C6: resubmitting the already-found "rack" leaves the
score unchanged even when the oracle would accept the word. -/
theorem C6_witness :
    lowerWord dupCtx.currentInput ∈ dupCtx.foundWords ∧
    (stepInput (.validating, dupCtx) (.resolve (.ok true))).2.score =
      dupCtx.score :=
  ⟨by decide, ((C6_rejection_frame dupCtx (.ok true)).2 (by decide)).2.2⟩

/-- C7: in every reachable machine state the score is a non-negative
integer, and every single step either keeps the score from decreasing
or is a `NEW_PUZZLE` event that resets it to 0 — so along any event
sequence the score is non-decreasing within a puzzle and is zeroed only
by `NEW_PUZZLE`. -/
theorem C7_score_monotone (s : MachineState × PangramContext)
    (h : Reachable s) :
    0 ≤ s.2.score ∧
    ∀ inp : MachineInput,
      s.2.score ≤ (stepInput s inp).2.score ∨
        (inp = .event .NEW_PUZZLE ∧ (stepInput s inp).2.score = 0) := by
  refine ⟨?_, fun inp => score_step s inp⟩
  induction h with
  | init i => exact le_rfl
  | step s inp hs ih =>
    rcases score_step s inp with h1 | h2
    · exact le_trans ih h1
    · rw [h2.2]

/-- Witness for C7 at the initial state of puzzle 0. -/
theorem C7_witness : 0 ≤ ((initialState 0).2).score :=
  (C7_score_monotone (initialState 0) (Reachable.init 0)).1

/-- C10: in every reachable state the pending input consists only of
uppercase letters belonging to the current puzzle's letter set; hence
the pending input always satisfies `usesOnlyAvailableLetters`, and the
local rules applied to it can only yield acceptance or the too-short /
missing-center / already-found rejections — never the
unavailable-letters rejection. -/
theorem C10_input_invariant (s : MachineState × PangramContext)
    (h : Reachable s) :
    (∀ c ∈ s.2.currentInput, c ∈ s.2.letters ∧ c.isUpper = true) ∧
    usesOnlyAvailableLetters s.2.currentInput s.2.letters = true ∧
    (validateWordRules s.2.currentInput s.2.letters s.2.centerLetter
        s.2.foundWords = none ∨
      validateWordRules s.2.currentInput s.2.letters s.2.centerLetter
        s.2.foundWords = some tooShortReason ∨
      validateWordRules s.2.currentInput s.2.letters s.2.centerLetter
        s.2.foundWords = some (centerReason s.2.centerLetter) ∨
      validateWordRules s.2.currentInput s.2.letters s.2.centerLetter
        s.2.foundWords = some alreadyFoundReason) := by
  obtain ⟨hin, hup⟩ := reachable_inputInv s h
  refine ⟨fun c hc => ⟨hin c hc, hup c (hin c hc)⟩, ?_,
    validateWordRules_not_unavailable hin⟩
  exact (usesOnly_iff_plain _ _).mpr fun c hc =>
    List.mem_map_of_mem _ (hin c hc)

/-- Witness for C10 at the initial state of puzzle 0. -/
theorem C10_witness :
    usesOnlyAvailableLetters (initialState 0).2.currentInput
      (initialState 0).2.letters = true :=
  (C10_input_invariant (initialState 0) (Reachable.init 0)).2.1

/-- Witness for C8: the iff applied at a concrete pangram. -/
theorem C8_witness :
    Char.toLower 'K' ∈ lowerWord ['c', 'r', 'a', 'c', 'k', 'i', 'n', 'g', 's'] :=
  (C8_isPangram_superset.1 ['c', 'r', 'a', 'c', 'k', 'i', 'n', 'g', 's']
    ['R', 'A', 'C', 'K', 'I', 'N', 'G']).mp (by decide) 'K' (by decide)

end Pangram
